import Mathlib

/-!
Verification of the rank-lab recommendation backend.

Shallow embedding of the filter chain (`app/services/filters.py`), the
scoring pipeline (`app/services/scoring.py`, `app/services/pipeline.py`),
the online-learning service (`app/services/online_learning.py`), the
engagement-logging handler (`app/api/recommendations.py`) and the
ranking-model interface (`app/services/minilm_ranker.py`), together with
theorems about the properties stated in the specification.

Numeric conventions: Python floats in the filter/scoring path are embedded
as exact rationals (`ℚ`); the online-learning path needs a square root for
L2 normalization and is embedded over `ℝ`.  UUIDs are embedded as `Nat`,
`datetime` values as wall-clock seconds (`Int`) with an optional UTC
offset (`none` = timezone-naive).
-/

namespace RankLab

/-- A candidate post (`app/schemas/schemas.py`, `PostCandidate`), restricted to
the fields that the filter chain and the scoring stages read. -/
structure PostCandidate where
  id : Nat
  text : String
  authorId : Nat
  createdAt : Int
  tzOffset : Option Int
  isInNetwork : Bool
deriving DecidableEq

/-- UTC instant denoted by a candidate's timestamp.  A timezone-naive
timestamp is normalized by attaching UTC (`created.replace(tzinfo=timezone.utc)`
in `AgeFilter.filter`), i.e. offset `0`; an aware timestamp with offset `o`
denotes the instant `createdAt - o`. -/
def absTime (c : PostCandidate) : Int := c.createdAt - c.tzOffset.getD 0

/-- `settings.MAX_POST_AGE_DAYS` (`app/core/config.py`). -/
def MAX_POST_AGE_DAYS : Int := 7

/-- Recursion of `DropDuplicatesFilter.filter`: keep the first occurrence of
each candidate id, tracking the set of already seen ids. -/
def dropDuplicatesGo (seen : List Nat) : List PostCandidate → List PostCandidate
  | [] => []
  | c :: rest =>
      if c.id ∈ seen then dropDuplicatesGo seen rest
      else c :: dropDuplicatesGo (c.id :: seen) rest

/-- `DropDuplicatesFilter.filter` (candidate list part; the removed count is
recovered as the length difference, exactly as `FilterPipeline.apply` does). -/
def dropDuplicates (l : List PostCandidate) : List PostCandidate :=
  dropDuplicatesGo [] l

/-- `CoreDataHydrationFilter.filter` predicate:
`candidate.text and candidate.author_id and candidate.created_at`.
`author_id` (a UUID) and `created_at` (a datetime) are required, always-truthy
fields in the source schema, so the Python truthiness test reduces to the text
being non-empty. -/
def hydrationKeep (c : PostCandidate) : Bool := c.text ≠ ""

def coreDataHydration (l : List PostCandidate) : List PostCandidate :=
  l.filter hydrationKeep

/-- `AgeFilter.filter` predicate: keep a candidate iff `created > cutoff`
where `cutoff = now - timedelta(days=max_age_days)` and a naive `created`
is first normalized to UTC. -/
def ageKeep (now maxAgeDays : Int) (c : PostCandidate) : Bool :=
  decide (now - maxAgeDays * 86400 < absTime c)

def ageFilter (now maxAgeDays : Int) (l : List PostCandidate) : List PostCandidate :=
  l.filter (ageKeep now maxAgeDays)

/-- `SelfTweetFilter.filter` predicate: keep iff `candidate.author_id != self.user_id`. -/
def selfKeep (userId : Nat) (c : PostCandidate) : Bool := c.authorId ≠ userId

def selfTweetFilter (userId : Nat) (l : List PostCandidate) : List PostCandidate :=
  l.filter (selfKeep userId)

/-- `AuthorSocialgraphFilter.filter` predicate: keep iff the author is in
neither the blocked nor the muted set. -/
def socialKeep (blocked muted : List Nat) (c : PostCandidate) : Bool :=
  decide (c.authorId ∉ blocked ∧ c.authorId ∉ muted)

def authorSocialgraphFilter (blocked muted : List Nat) (l : List PostCandidate) :
    List PostCandidate :=
  l.filter (socialKeep blocked muted)

/-- The per-request inputs of `FilterPipeline.__init__` plus the request time
`now` (the source calls `datetime.now(timezone.utc)` inside `AgeFilter.filter`;
it is a parameter here) and the configured age window. -/
structure FilterCtx where
  userId : Nat
  blocked : List Nat
  muted : List Nat
  now : Int
  maxAgeDays : Int
deriving DecidableEq

/-- The five stages of `FilterPipeline`. -/
inductive Stage where
  | dedup
  | hydration
  | age
  | selfTweet
  | socialgraph
deriving DecidableEq

def runStage (ctx : FilterCtx) : Stage → List PostCandidate → List PostCandidate
  | Stage.dedup, l => dropDuplicates l
  | Stage.hydration, l => l.filter hydrationKeep
  | Stage.age, l => l.filter (ageKeep ctx.now ctx.maxAgeDays)
  | Stage.selfTweet, l => l.filter (selfKeep ctx.userId)
  | Stage.socialgraph, l => l.filter (socialKeep ctx.blocked ctx.muted)

def runStages (ctx : FilterCtx) (stages : List Stage) (l : List PostCandidate) :
    List PostCandidate :=
  stages.foldl (fun acc s => runStage ctx s acc) l

/-- The stage order hard-coded in `FilterPipeline.__init__`. -/
def canonicalStages : List Stage :=
  [Stage.dedup, Stage.hydration, Stage.age, Stage.selfTweet, Stage.socialgraph]

def filterNames : List String :=
  ["DropDuplicates", "CoreDataHydration", "Age", "SelfTweet", "AuthorSocialgraph"]

/-- `FilterPipeline.apply` loop: thread the candidate list through the stages
and record, per stage, `len(current) - len(result.candidates)`. -/
def runStagesWithStats (ctx : FilterCtx) :
    List (Stage × String) → List PostCandidate → List PostCandidate × List (String × Nat)
  | [], l => (l, [])
  | (s, n) :: rest, l =>
      let res := runStage ctx s l
      let out := runStagesWithStats ctx rest res
      (out.1, (n, l.length - res.length) :: out.2)

/-- `FilterPipeline.apply`: all five filters in their hard-coded order, plus
the removal-count stats. -/
def FilterPipeline_apply (ctx : FilterCtx) (l : List PostCandidate) :
    List PostCandidate × List (String × Nat) :=
  runStagesWithStats ctx (canonicalStages.zip filterNames) l

theorem FilterPipeline_apply_fst (ctx : FilterCtx) (l : List PostCandidate) :
    (FilterPipeline_apply ctx l).1 = runStages ctx canonicalStages l := rfl

theorem mem_ageFilter {now maxAgeDays : Int} {l : List PostCandidate}
    {c : PostCandidate} :
    c ∈ ageFilter now maxAgeDays l ↔ c ∈ l ∧ now - maxAgeDays * 86400 < absTime c := by
  simp [ageFilter, List.mem_filter, ageKeep]

/-- C8: the age filter with the default 7-day window removes a candidate whose
(UTC-normalized) creation time is `now − 7d − 1s` and keeps one created at
`now − 6d`; both candidates here are timezone-naive and hence normalized to
UTC before the comparison. -/
theorem C8_age_filter_boundary (now : Int) (l : List PostCandidate)
    (c₁ c₂ : PostCandidate)
    (h₁ : c₁.createdAt = now - (7 * 86400 + 1)) (h₁tz : c₁.tzOffset = none)
    (h₂ : c₂.createdAt = now - 6 * 86400) (h₂tz : c₂.tzOffset = none) :
    c₁ ∉ ageFilter now MAX_POST_AGE_DAYS l ∧
      (c₂ ∈ l → c₂ ∈ ageFilter now MAX_POST_AGE_DAYS l) := by
  constructor
  · intro hmem
    rcases mem_ageFilter.mp hmem with ⟨-, hlt⟩
    rw [absTime, h₁, h₁tz] at hlt
    simp only [Option.getD_none, MAX_POST_AGE_DAYS] at hlt
    omega
  · intro hmem
    refine mem_ageFilter.mpr ⟨hmem, ?_⟩
    rw [absTime, h₂, h₂tz]
    simp only [Option.getD_none, MAX_POST_AGE_DAYS]
    omega

def c8old : PostCandidate :=
  { id := 1, text := "old", authorId := 5, createdAt := 1000000 - (7 * 86400 + 1),
    tzOffset := none, isInNetwork := true }

def c8fresh : PostCandidate :=
  { id := 2, text := "fresh", authorId := 5, createdAt := 1000000 - 6 * 86400,
    tzOffset := none, isInNetwork := true }

theorem C8_age_filter_boundary_witness :
    c8old ∉ ageFilter 1000000 MAX_POST_AGE_DAYS [c8old, c8fresh] ∧
      (c8fresh ∈ [c8old, c8fresh] →
        c8fresh ∈ ageFilter 1000000 MAX_POST_AGE_DAYS [c8old, c8fresh]) :=
  C8_age_filter_boundary 1000000 [c8old, c8fresh] c8old c8fresh rfl rfl rfl rfl

/-! ### C1: permuting the filter stages -/

/-- Any two candidates of the list that share an id are equal (the condition
under which deduplication commutes with the predicate stages). -/
def IdInjective (l : List PostCandidate) : Prop :=
  ∀ a ∈ l, ∀ b ∈ l, a.id = b.id → a = b

instance (l : List PostCandidate) : Decidable (IdInjective l) :=
  inferInstanceAs (Decidable (∀ a ∈ l, ∀ b ∈ l, a.id = b.id → a = b))

theorem IdInjective.sublist {l₁ l₂ : List PostCandidate} (hs : List.Sublist l₁ l₂)
    (h : IdInjective l₂) : IdInjective l₁ :=
  fun a ha b hb hab => h a (hs.subset ha) b (hs.subset hb) hab

theorem IdInjective.of_cons {c : PostCandidate} {l : List PostCandidate}
    (h : IdInjective (c :: l)) : IdInjective l :=
  h.sublist (List.sublist_cons_self c l)

theorem dropDuplicatesGo_sublist (seen : List Nat) (l : List PostCandidate) :
    List.Sublist (dropDuplicatesGo seen l) l := by
  induction l generalizing seen with
  | nil => simp [dropDuplicatesGo]
  | cons c rest ih =>
      by_cases h : c.id ∈ seen
      · rw [dropDuplicatesGo, if_pos h]
        exact (ih seen).cons c
      · rw [dropDuplicatesGo, if_neg h]
        exact (ih (c.id :: seen)).cons₂ c

theorem dropDuplicatesGo_congr {seen₁ seen₂ : List Nat} (l : List PostCandidate)
    (h : ∀ i, i ∈ seen₁ ↔ i ∈ seen₂) :
    dropDuplicatesGo seen₁ l = dropDuplicatesGo seen₂ l := by
  induction l generalizing seen₁ seen₂ with
  | nil => rfl
  | cons c rest ih =>
      by_cases hc : c.id ∈ seen₁
      · rw [dropDuplicatesGo, if_pos hc, dropDuplicatesGo, if_pos ((h c.id).mp hc)]
        exact ih h
      · rw [dropDuplicatesGo, if_neg hc,
          dropDuplicatesGo, if_neg (fun hx => hc ((h c.id).mpr hx))]
        exact congrArg (List.cons c) (ih fun i => by simp [List.mem_cons, h i])

theorem dropDuplicatesGo_cons_seen {x : Nat} (seen : List Nat)
    (l : List PostCandidate) (h : ∀ c ∈ l, c.id ≠ x) :
    dropDuplicatesGo (x :: seen) l = dropDuplicatesGo seen l := by
  induction l generalizing seen with
  | nil => rfl
  | cons c rest ih =>
      have hcx : c.id ≠ x := h c (List.mem_cons_self c rest)
      have hrest : ∀ d ∈ rest, d.id ≠ x := fun d hd => h d (List.mem_cons_of_mem c hd)
      by_cases hc : c.id ∈ seen
      · rw [dropDuplicatesGo, if_pos (List.mem_cons.mpr (Or.inr hc)),
          dropDuplicatesGo, if_pos hc]
        exact ih seen hrest
      · have hnx : c.id ∉ x :: seen := by simp [List.mem_cons, hcx, hc]
        rw [dropDuplicatesGo, if_neg hnx, dropDuplicatesGo, if_neg hc]
        refine congrArg (List.cons c) ?_
        calc dropDuplicatesGo (c.id :: x :: seen) rest
            = dropDuplicatesGo (x :: c.id :: seen) rest :=
              dropDuplicatesGo_congr rest (fun i => by
                simp only [List.mem_cons]; tauto)
          _ = dropDuplicatesGo (c.id :: seen) rest := ih (c.id :: seen) hrest

theorem dropDuplicatesGo_filter (p : PostCandidate → Bool) (seen : List Nat)
    (l : List PostCandidate) (h : IdInjective l) :
    dropDuplicatesGo seen (l.filter p) = (dropDuplicatesGo seen l).filter p := by
  induction l generalizing seen with
  | nil => rfl
  | cons c rest ih =>
      have hrest : IdInjective rest := h.of_cons
      by_cases hc : c.id ∈ seen
      · cases hp : p c with
        | false =>
            rw [List.filter_cons_of_neg (by simp [hp]), dropDuplicatesGo, if_pos hc]
            exact ih seen hrest
        | true =>
            rw [List.filter_cons_of_pos (by simp [hp]), dropDuplicatesGo, if_pos hc,
              dropDuplicatesGo, if_pos hc]
            exact ih seen hrest
      · cases hp : p c with
        | false =>
            rw [List.filter_cons_of_neg (by simp [hp]), dropDuplicatesGo, if_neg hc,
              List.filter_cons_of_neg (by simp [hp]), ← ih (c.id :: seen) hrest]
            refine (dropDuplicatesGo_cons_seen seen (rest.filter p) ?_).symm
            intro d hd hdc
            rcases List.mem_filter.mp hd with ⟨hdr, hdp⟩
            have : d = c :=
              h d (List.mem_cons_of_mem c hdr) c (List.mem_cons_self c rest) hdc
            rw [this, hp] at hdp
            exact Bool.false_ne_true hdp
        | true =>
            rw [List.filter_cons_of_pos (by simp [hp]), dropDuplicatesGo, if_neg hc,
              dropDuplicatesGo, if_neg hc, List.filter_cons_of_pos (by simp [hp])]
            exact congrArg (List.cons c) (ih (c.id :: seen) hrest)

theorem dropDuplicates_filter (p : PostCandidate → Bool) (l : List PostCandidate)
    (h : IdInjective l) :
    dropDuplicates (l.filter p) = (dropDuplicates l).filter p :=
  dropDuplicatesGo_filter p [] l h

theorem filter_swap (p q : PostCandidate → Bool) (l : List PostCandidate) :
    (l.filter p).filter q = (l.filter q).filter p := by
  induction l with
  | nil => rfl
  | cons c rest ih =>
      cases hp : p c <;> cases hq : q c <;>
        simp [List.filter_cons, hp, hq, ih]

theorem runStage_idInjective (ctx : FilterCtx) (s : Stage) {l : List PostCandidate}
    (h : IdInjective l) : IdInjective (runStage ctx s l) := by
  cases s <;>
    first
      | exact IdInjective.sublist (dropDuplicatesGo_sublist [] l) h
      | exact IdInjective.sublist (List.filter_sublist l) h

theorem runStage_comm (ctx : FilterCtx) (a b : Stage) (l : List PostCandidate)
    (h : IdInjective l) :
    runStage ctx b (runStage ctx a l) = runStage ctx a (runStage ctx b l) := by
  cases a <;> cases b <;>
    first
      | rfl
      | exact filter_swap ..
      | exact dropDuplicates_filter _ l h
      | exact (dropDuplicates_filter _ l h).symm

theorem runStages_perm (ctx : FilterCtx) {s₁ s₂ : List Stage} (hp : s₁.Perm s₂) :
    ∀ l : List PostCandidate, IdInjective l →
      runStages ctx s₁ l = runStages ctx s₂ l := by
  induction hp with
  | nil => intro l _; rfl
  | cons x _ ih =>
      intro l hl
      simpa [runStages] using ih (runStage ctx x l) (runStage_idInjective ctx x hl)
  | swap x y rest =>
      intro l hl
      simp only [runStages, List.foldl_cons]
      rw [runStage_comm ctx y x l hl]
  | trans _ _ ih₁ ih₂ =>
      intro l hl
      exact (ih₁ l hl).trans (ih₂ l hl)

def c1ctx : FilterCtx :=
  { userId := 99, blocked := [], muted := [], now := 1000000, maxAgeDays := 7 }

def c1dupEmpty : PostCandidate :=
  { id := 7, text := "", authorId := 3, createdAt := 999900,
    tzOffset := none, isInNetwork := true }

def c1dupFull : PostCandidate :=
  { id := 7, text := "hello", authorId := 3, createdAt := 999900,
    tzOffset := none, isInNetwork := true }

/-- C1 counterexample: on a list holding two candidates with the same id but
different core data (one has empty text), running the deduplicate stage before
core-data hydration surfaces the empty-text duplicate and ends with no
survivors, while the swapped order keeps the hydrated duplicate: the final
surviving sets differ, refuting the claim for arbitrary candidate lists. -/
theorem C1_counterexample :
    ([Stage.hydration, Stage.dedup, Stage.age, Stage.selfTweet,
        Stage.socialgraph].Perm canonicalStages) ∧
      runStages c1ctx [Stage.hydration, Stage.dedup, Stage.age, Stage.selfTweet,
          Stage.socialgraph] [c1dupEmpty, c1dupFull] ≠
        (FilterPipeline_apply c1ctx [c1dupEmpty, c1dupFull]).1 := by
  decide

/-- C1 amended: for every filter context (requesting user, blocked/muted sets,
request time) and every candidate list in which candidates sharing an id are
identical, running the five stages in any permuted order produces exactly the
surviving candidate list of `FilterPipeline.apply` (only the per-stage removal
counts may differ). -/
theorem C1_filter_order_invariance (ctx : FilterCtx) (l : List PostCandidate)
    (stages : List Stage) (hperm : stages.Perm canonicalStages)
    (hid : IdInjective l) :
    runStages ctx stages l = (FilterPipeline_apply ctx l).1 := by
  rw [FilterPipeline_apply_fst]
  exact runStages_perm ctx hperm l hid

def c1w₁ : PostCandidate :=
  { id := 1, text := "a", authorId := 3, createdAt := 999900,
    tzOffset := none, isInNetwork := true }

def c1w₂ : PostCandidate :=
  { id := 2, text := "", authorId := 4, createdAt := 999900,
    tzOffset := some 3600, isInNetwork := false }

theorem C1_filter_order_invariance_witness :
    ([Stage.socialgraph, Stage.selfTweet, Stage.age, Stage.hydration,
        Stage.dedup].Perm canonicalStages) ∧
      IdInjective [c1w₁, c1w₂] ∧
      runStages c1ctx [Stage.socialgraph, Stage.selfTweet, Stage.age,
          Stage.hydration, Stage.dedup] [c1w₁, c1w₂] =
        (FilterPipeline_apply c1ctx [c1w₁, c1w₂]).1 :=
  ⟨by decide, by decide,
    C1_filter_order_invariance c1ctx [c1w₁, c1w₂]
      [Stage.socialgraph, Stage.selfTweet, Stage.age, Stage.hydration,
        Stage.dedup] (by decide) (by decide)⟩

/-! ### Scoring pipeline (`app/services/scoring.py`, `app/services/pipeline.py`) -/

/-- `settings.DEFAULT_WEIGHTS` (`app/core/config.py`); the float `1.2` is the
exact rational `6 / 5` here. -/
def DEFAULT_WEIGHTS : List (String × ℚ) :=
  [("like", 1), ("reply", 6 / 5), ("repost", 1), ("not_interested", -2),
    ("block_author", -10), ("mute_author", -5)]

/-- One row of the `scoring_weights` table as read by
`RecommendationPipeline._load_scoring_weights` (`action_type`, `weight`,
`is_active`; a missing `is_active` defaults to true in the source's
`row.get("is_active", True)`). -/
structure ScoringWeightRow where
  action_type : String
  weight : ℚ
  is_active : Bool
deriving DecidableEq

/-- Python `dict` assignment on an insertion-ordered association list:
overwrite an existing key in place, otherwise append. -/
def dictInsert (d : List (String × ℚ)) (k : String) (v : ℚ) : List (String × ℚ) :=
  if d.any (fun e => e.1 == k) then
    d.map (fun e => if e.1 == k then (k, v) else e)
  else d ++ [(k, v)]

def dictFind (d : List (String × ℚ)) (k : String) : Option ℚ :=
  (d.find? (fun e => e.1 == k)).map Prod.snd

/-- Python `dict.get(key, default)`. -/
def dictGet (d : List (String × ℚ)) (k : String) (default : ℚ) : ℚ :=
  (dictFind d k).getD default

/-- `RecommendationPipeline._load_scoring_weights`: build the action→weight
dict from the rows marked active; if that dict is non-empty return it,
otherwise (no rows, none active, or a failed query) fall back to
`settings.DEFAULT_WEIGHTS`. -/
def loadScoringWeights (rows : List ScoringWeightRow) : List (String × ℚ) :=
  let weights := (rows.filter (fun r => r.is_active)).foldl
    (fun d r => dictInsert d r.action_type r.weight) []
  if weights = [] then DEFAULT_WEIGHTS else weights

/-- `WeightedScorer.score`: `Σ self.weights.get(action, 0.0) × prob` over the
prediction dict's items. -/
def WeightedScorer_score (weights : List (String × ℚ))
    (predictions : List (String × ℚ)) : ℚ :=
  (predictions.map (fun ap => dictGet weights ap.1 0 * ap.2)).sum

def c2rows : List ScoringWeightRow :=
  [{ action_type := "like", weight := 1, is_active := true }]

/-- C2 counterexample: with an active configuration carrying only a `like`
entry, the weighted-score stage scores a pure-`reply` prediction as `0` — not
with the fallback-table `reply` weight `1.2` as the claim states. -/
theorem C2_counterexample :
    dictFind (loadScoringWeights c2rows) "reply" = none ∧
      dictGet DEFAULT_WEIGHTS "reply" 0 = 6 / 5 ∧
      WeightedScorer_score (loadScoringWeights c2rows) [("reply", 1)] = 0 ∧
      WeightedScorer_score (loadScoringWeights c2rows) [("reply", 1)] ≠
        dictGet DEFAULT_WEIGHTS "reply" 0 * 1 := by
  have hlr : ("like" == "reply") = false := by decide
  refine ⟨rfl, rfl, ?_, ?_⟩ <;>
    · simp only [WeightedScorer_score, loadScoringWeights, c2rows,
        dictInsert, dictGet, dictFind, DEFAULT_WEIGHTS, List.find?, List.map,
        List.sum_cons, List.sum_nil, List.foldl, List.any, List.filter, hlr,
        Option.map_some, Option.map_none, Option.getD_some, Option.getD_none]
      norm_num

/-- C2 amended: the fixed fallback table is used only when the active weight
configuration is empty as a whole; when a non-empty active configuration lacks
an entry for an action, that action is scored with weight `0` (its term drops
out of the weighted sum), not with its fallback-table weight. -/
theorem C2_missing_action_weight :
    (∀ rows : List ScoringWeightRow, rows.filter (fun r => r.is_active) = [] →
        loadScoringWeights rows = DEFAULT_WEIGHTS) ∧
      (∀ (rows : List ScoringWeightRow) (a : String) (p : ℚ)
          (preds : List (String × ℚ)),
        dictFind (loadScoringWeights rows) a = none →
          WeightedScorer_score (loadScoringWeights rows) ((a, p) :: preds) =
            WeightedScorer_score (loadScoringWeights rows) preds) := by
  constructor
  · intro rows h
    simp [loadScoringWeights, h]
  · intro rows a p preds h
    have hz : dictGet (loadScoringWeights rows) a 0 = 0 := by
      rw [dictGet, h, Option.getD_none]
    simp [WeightedScorer_score, hz]

theorem C2_missing_action_weight_witness :
    loadScoringWeights [{ action_type := "like", weight := 1, is_active := false }] =
        DEFAULT_WEIGHTS ∧
      WeightedScorer_score (loadScoringWeights c2rows) [("reply", 1), ("like", 1)] =
        WeightedScorer_score (loadScoringWeights c2rows) [("like", 1)] :=
  ⟨C2_missing_action_weight.1
      [{ action_type := "like", weight := 1, is_active := false }] (by decide),
    C2_missing_action_weight.2 c2rows "reply" 1 [("like", 1)] (by decide)⟩

/-- `AuthorDiversityScorer` multiplier `(1.0 - floor) * decay ** position + floor`. -/
def diversityMult (decay floor : ℚ) (position : ℕ) : ℚ :=
  (1 - floor) * decay ^ position + floor

/-- Loop of `AuthorDiversityScorer.apply`: each candidate's score is scaled by
the multiplier for how many times its author has already appeared in the list
processed so far, and the per-author counter is bumped. -/
def diversityGo (decay floor : ℚ) (counts : Nat → ℕ) :
    List (PostCandidate × ℚ) → List (PostCandidate × ℚ)
  | [] => []
  | (c, s) :: rest =>
      (c, s * diversityMult decay floor (counts c.authorId)) ::
        diversityGo decay floor
          (fun a => if a = c.authorId then counts c.authorId + 1 else counts a) rest

/-- The `key=lambda x: x[1], reverse=True` order: descending by score. -/
def byScoreDesc (a b : PostCandidate × ℚ) : Prop := b.2 ≤ a.2

instance : DecidableRel byScoreDesc := fun a b =>
  inferInstanceAs (Decidable (b.2 ≤ a.2))

instance : IsTotal (PostCandidate × ℚ) byScoreDesc :=
  ⟨fun a b => (le_total b.2 a.2).imp id id⟩

instance : IsTrans (PostCandidate × ℚ) byScoreDesc :=
  ⟨fun _ _ _ hab hbc => le_trans hbc hab⟩

/-- `AuthorDiversityScorer.apply`: adjust every score, then re-sort by
descending score; Python's stable `list.sort` is modelled by the stable
`insertionSort`. -/
def AuthorDiversityScorer_apply (decay floor : ℚ)
    (l : List (PostCandidate × ℚ)) : List (PostCandidate × ℚ) :=
  List.insertionSort byScoreDesc (diversityGo decay floor (fun _ => 0) l)

theorem diversityGo_getElem (decay floor : ℚ) (counts : Nat → ℕ)
    (l : List (PostCandidate × ℚ)) (j : ℕ) (c : PostCandidate) (s : ℚ)
    (h : l[j]? = some (c, s)) :
    (diversityGo decay floor counts l)[j]? =
      some (c, s * diversityMult decay floor
        (counts c.authorId +
          ((l.take j).filter (fun e => e.1.authorId == c.authorId)).length)) := by
  induction l generalizing counts j with
  | nil => simp at h
  | cons x rest ih =>
      obtain ⟨xc, xs⟩ := x
      cases j with
      | zero =>
          simp only [List.getElem?_cons_zero, Option.some.injEq, Prod.mk.injEq] at h
          obtain ⟨rfl, rfl⟩ := h
          simp [diversityGo]
      | succ j =>
          rw [List.getElem?_cons_succ] at h
          rw [diversityGo, List.getElem?_cons_succ,
            ih (fun a => if a = xc.authorId then counts xc.authorId + 1 else counts a)
              j h]
          refine congrArg some
            (congrArg (fun n => (c, s * diversityMult decay floor n)) ?_)
          rw [List.take_succ_cons, List.filter_cons]
          by_cases hca : c.authorId = xc.authorId
      -- the head bumps the counter for this author and is also counted by take
          · rw [if_pos hca, hca,
              if_pos (show ((xc, xs).1.authorId == xc.authorId) = true by simp),
              List.length_cons]
            omega
          · rw [if_neg hca,
              if_neg (show ¬((xc, xs).1.authorId == c.authorId) = true by
                simp only [beq_iff_eq]
                exact fun hx => hca hx.symm)]

theorem diversityMult_pos_floor (k : ℕ) : 0.3 < diversityMult 0.7 0.3 k := by
  have h : (0 : ℚ) < 0.7 ^ k := pow_pos (by norm_num) k
  rw [diversityMult]
  nlinarith

theorem diversityMult_geom (k : ℕ) :
    diversityMult 0.7 0.3 (k + 1) - 0.3 = 0.7 * (diversityMult 0.7 0.3 k - 0.3) := by
  rw [diversityMult, diversityMult, pow_succ]
  ring

theorem diversityMult_decr (k : ℕ) :
    diversityMult 0.7 0.3 (k + 1) < diversityMult 0.7 0.3 k := by
  have hp : (0 : ℚ) < 0.7 ^ k := pow_pos (by norm_num) k
  have h : (0.7 : ℚ) ^ (k + 1) < 0.7 ^ k := by
    rw [pow_succ]
    nlinarith
  rw [diversityMult, diversityMult]
  nlinarith

/-- C6: with the default decay `0.7` and floor `0.3`, the author-diversity
stage multiplies the k-th occurrence (k counted from 0 in processing order,
per author) of an author's candidate by `(1 − 0.3)·0.7^k + 0.3`; the first
occurrence is multiplied by exactly `1`, every multiplier stays strictly above
the floor `0.3` and decreases geometrically toward it, and the list is
re-sorted by descending score afterwards. -/
theorem C6_author_diversity_decay :
    diversityMult 0.7 0.3 0 = 1 ∧
    (∀ k : ℕ, 0.3 < diversityMult 0.7 0.3 k) ∧
    (∀ k : ℕ, diversityMult 0.7 0.3 (k + 1) - 0.3 =
        0.7 * (diversityMult 0.7 0.3 k - 0.3)) ∧
    (∀ k : ℕ, diversityMult 0.7 0.3 (k + 1) < diversityMult 0.7 0.3 k) ∧
    (∀ (l : List (PostCandidate × ℚ)) (j : ℕ) (c : PostCandidate) (s : ℚ),
      l[j]? = some (c, s) →
        (diversityGo 0.7 0.3 (fun _ => 0) l)[j]? =
          some (c, s * diversityMult 0.7 0.3
            (((l.take j).filter (fun e => e.1.authorId == c.authorId)).length))) ∧
    (∀ l : List (PostCandidate × ℚ),
      (AuthorDiversityScorer_apply 0.7 0.3 l).Sorted byScoreDesc ∧
        (AuthorDiversityScorer_apply 0.7 0.3 l).Perm
          (diversityGo 0.7 0.3 (fun _ => 0) l)) := by
  refine ⟨by norm_num [diversityMult], diversityMult_pos_floor, diversityMult_geom,
    diversityMult_decr, ?_, ?_⟩
  · intro l j c s h
    simpa using diversityGo_getElem 0.7 0.3 (fun _ => 0) l j c s h
  · intro l
    exact ⟨List.sorted_insertionSort byScoreDesc _,
      List.perm_insertionSort byScoreDesc _⟩

def c6post : PostCandidate :=
  { id := 11, text := "t", authorId := 4, createdAt := 0, tzOffset := none,
    isInNetwork := true }

def c6list : List (PostCandidate × ℚ) := [(c6post, 10), (c6post, 8), (c6post, 6)]

theorem C6_author_diversity_decay_witness :
    (diversityGo 0.7 0.3 (fun _ => 0) c6list)[1]? =
      some (c6post, 8 * diversityMult 0.7 0.3
        (((c6list.take 1).filter
          (fun e => e.1.authorId == c6post.authorId)).length)) :=
  C6_author_diversity_decay.2.2.2.2.1 c6list 1 c6post 8 rfl

/-! ### Online learning (`app/services/online_learning.py`), over `ℝ` -/

/-- `SIGNAL_MAP`: signal strengths for the engagement types (floats embedded
as exact reals; `1.5` is `3 / 2`). -/
noncomputable def SIGNAL_MAP : List (String × ℝ) :=
  [("like", 1), ("reply", 3 / 2), ("repost", 1), ("not_interested", -1),
    ("block_author", -2), ("mute_author", -3 / 2), ("view", 0)]

def lookupSignal (m : List (String × ℝ)) (k : String) : Option ℝ :=
  (m.find? (fun e => e.1 == k)).map Prod.snd

/-- `SIGNAL_MAP.get(event_type, 0.0)`. -/
noncomputable def signalOf (t : String) : ℝ := (lookupSignal SIGNAL_MAP t).getD 0

/-- `settings.USER_EMBEDDING_DIM`. -/
def USER_EMBEDDING_DIM : ℕ := 128

/-- The store rows the online-learning service touches:
`user_embeddings(user_id → (embedding_128, engagement_count))` and
`post_embeddings(post_id → (embedding_128, is_pretrained))`. -/
structure Store where
  userEmbs : List (Nat × (List ℝ × ℕ))
  postEmbs : List (Nat × (List ℝ × Bool))

def lookupRow {β : Type} (rows : List (Nat × β)) (k : Nat) : Option β :=
  (rows.find? (fun e => e.1 == k)).map Prod.snd

def upsertRow {β : Type} (rows : List (Nat × β)) (k : Nat) (v : β) :
    List (Nat × β) :=
  if rows.any (fun e => e.1 == k) then
    rows.map (fun e => if e.1 == k then (k, v) else e)
  else rows ++ [(k, v)]

/-- L2 norm (`np.linalg.norm`). -/
noncomputable def norm2 (v : List ℝ) : ℝ :=
  Real.sqrt ((v.map (fun x => x ^ 2)).sum)

/-- The `1e-8` threshold in `_normalize`. -/
noncomputable def NORM_EPS : ℝ := 1 / 10 ^ 8

/-- `_normalize`: a vector of norm below `1e-8` is returned untouched,
otherwise the vector is divided by its norm. -/
noncomputable def normalize (v : List ℝ) : List ℝ :=
  if norm2 v < NORM_EPS then v else v.map (fun x => x / norm2 v)

/-- numpy elementwise `+` on same-length vectors. -/
def vecAdd (v w : List ℝ) : List ℝ := List.zipWith (fun a b => a + b) v w

/-- numpy scalar `*`. -/
def smul (a : ℝ) (v : List ℝ) : List ℝ := v.map (fun x => a * x)

noncomputable def USER_BASE_ALPHA : ℝ := 1 / 10

noncomputable def POST_LEARNING_RATE : ℝ := 1 / 100

/-- Core of `OnlineLearningService._update_user_embedding` (the local
`alpha = min(USER_BASE_ALPHA, 1.0 / (count + 1))` is inlined): the normalized
new vector together with the incremented counter, as they are upserted. -/
noncomputable def updateUserEmbedding (current : List ℝ) (count : ℕ)
    (postEmb : List ℝ) (signal : ℝ) : List ℝ × ℕ :=
  (normalize (vecAdd
      (smul (1 - min USER_BASE_ALPHA (1 / ((count : ℝ) + 1))) current)
      (smul (min USER_BASE_ALPHA (1 / ((count : ℝ) + 1)) * signal) postEmb)),
    count + 1)

/-- `OnlineLearningService._update_user_embedding`: read the stored row
(zero vector of dimension `USER_EMBEDDING_DIM` and counter 0 when absent),
apply the EMA update and upsert the result. -/
noncomputable def updateUserRow (s : Store) (u : Nat) (postEmb : List ℝ)
    (signal : ℝ) : Store :=
  let cur := (lookupRow s.userEmbs u).getD
    (List.replicate USER_EMBEDDING_DIM (0 : ℝ), 0)
  { s with
    userEmbs := upsertRow s.userEmbs u (updateUserEmbedding cur.1 cur.2 postEmb signal) }

/-- `OnlineLearningService._update_post_embedding`: nudge the stored post
vector by `POST_LEARNING_RATE × signal × user_emb`, normalize, clear the
`is_pretrained` flag; a missing row is left untouched. -/
noncomputable def updatePostRow (s : Store) (p : Nat) (userEmb : List ℝ)
    (signal : ℝ) : Store :=
  match lookupRow s.postEmbs p with
  | none => s
  | some cur =>
      { s with
        postEmbs :=
          upsertRow s.postEmbs p
            (normalize (vecAdd cur.1 (smul (POST_LEARNING_RATE * signal) userEmb)), false) }

/-- `OnlineLearningService.process_engagement`: look up the signal (default
`0.0`), return immediately on a zero signal, skip entirely when either
embedding is missing, otherwise update the user row (toward the post vector)
and then the post row (toward the originally fetched user vector). -/
noncomputable def processEngagement (s : Store) (u p : Nat) (t : String) :
    Store :=
  if signalOf t = 0 then s
  else
    match lookupRow s.userEmbs u, lookupRow s.postEmbs p with
    | some ue, some pe =>
        updatePostRow (updateUserRow s u pe.1 (signalOf t)) p ue.1 (signalOf t)
    | some _, none => s
    | none, _ => s

theorem processEngagement_skip (s : Store) (u p : Nat) (t : String)
    (h : signalOf t = 0 ∨ lookupRow s.userEmbs u = none ∨
      lookupRow s.postEmbs p = none) :
    processEngagement s u p t = s := by
  rw [processEngagement]
  by_cases hs : signalOf t = 0
  · rw [if_pos hs]
  · rw [if_neg hs]
    rcases h with h | h | h
    · exact absurd h hs
    · rw [h]
    · rw [h]
      cases lookupRow s.userEmbs u <;> rfl

/-- C7: an engagement whose action type carries signal exactly `0` (such as
`view`), or a non-zero-signal engagement for which the user or the post
embedding row is missing, leaves the whole embedding store unchanged: no
vector and no counter is written (no partial update). -/
theorem C7_zero_signal_or_missing_embedding (s : Store) (u p : Nat) (t : String)
    (h : signalOf t = 0 ∨ lookupRow s.userEmbs u = none ∨
      lookupRow s.postEmbs p = none) :
    processEngagement s u p t = s :=
  processEngagement_skip s u p t h

def c7store : Store := { userEmbs := [], postEmbs := [] }

theorem C7_zero_signal_or_missing_embedding_witness :
    processEngagement c7store 1 2 "view" = c7store :=
  C7_zero_signal_or_missing_embedding c7store 1 2 "view" (Or.inl rfl)

/-- C10: the action types `bookmark`, `unbookmark`, and `delete` (passed to
`process_engagement` by the bookmark and post-deletion endpoints) are absent
from `SIGNAL_MAP`; any such unknown action type defaults to signal `0` and
processing returns leaving both embedding tables unchanged. -/
theorem C10_unknown_action_type :
    lookupSignal SIGNAL_MAP "bookmark" = none ∧
    lookupSignal SIGNAL_MAP "unbookmark" = none ∧
    lookupSignal SIGNAL_MAP "delete" = none ∧
    (∀ (s : Store) (u p : Nat) (t : String), lookupSignal SIGNAL_MAP t = none →
      signalOf t = 0 ∧ processEngagement s u p t = s) := by
  refine ⟨rfl, rfl, rfl, ?_⟩
  intro s u p t h
  have hz : signalOf t = 0 := by rw [signalOf, h, Option.getD_none]
  exact ⟨hz, processEngagement_skip s u p t (Or.inl hz)⟩

theorem C10_unknown_action_type_witness :
    signalOf "bookmark" = 0 ∧ processEngagement c7store 1 2 "bookmark" = c7store :=
  C10_unknown_action_type.2.2.2 c7store 1 2 "bookmark" rfl

theorem sumSq_nonneg (v : List ℝ) : 0 ≤ (v.map (fun x => x ^ 2)).sum :=
  List.sum_nonneg fun x hx => by
    rcases List.mem_map.mp hx with ⟨y, -, rfl⟩
    positivity

theorem norm2_map_div (v : List ℝ) (a : ℝ) (ha : 0 < a) :
    norm2 (v.map (fun x => x / a)) = norm2 v / a := by
  rw [norm2, norm2, List.map_map]
  have hmap : ((fun x => x ^ 2) ∘ fun x => x / a) =
      fun x : ℝ => x ^ 2 * (a ^ 2)⁻¹ := by
    funext x
    simp only [Function.comp_apply]
    rw [div_pow, div_eq_mul_inv]
  rw [hmap, List.sum_map_mul_right, ← div_eq_mul_inv,
    Real.sqrt_div (sumSq_nonneg v), Real.sqrt_sq ha.le]

theorem norm2_normalize (v : List ℝ) :
    norm2 (normalize v) < NORM_EPS ∨ norm2 (normalize v) = 1 := by
  rw [normalize]
  by_cases h : norm2 v < NORM_EPS
  · rw [if_pos h]
    exact Or.inl h
  · rw [if_neg h]
    have hpos : 0 < norm2 v :=
      lt_of_lt_of_le (by rw [NORM_EPS]; norm_num) (le_of_not_lt h)
    right
    rw [norm2_map_div v (norm2 v) hpos, div_self (ne_of_gt hpos)]

/-- C3 amended: after every user-embedding update — for any prior stored
vector, counter, signal, and post embedding — the vector written back either
has L2 norm strictly below the `1e-8` threshold (it was left unnormalized; in
particular the zero vector) or has L2 norm exactly `1`. -/
theorem C3_written_vector_norm (current : List ℝ) (count : ℕ)
    (postEmb : List ℝ) (signal : ℝ) :
    norm2 (updateUserEmbedding current count postEmb signal).1 < NORM_EPS ∨
      norm2 (updateUserEmbedding current count postEmb signal).1 = 1 :=
  norm2_normalize _

theorem norm2_cons_replicate_zero (x : ℝ) (n : ℕ) :
    norm2 (x :: List.replicate n 0) = |x| := by
  have hsum : ((x :: List.replicate n 0).map (fun y => y ^ 2)).sum = x ^ 2 := by
    simp [List.map_replicate]
  rw [norm2, hsum, Real.sqrt_sq_eq_abs]

theorem norm2_pair (x : ℝ) : norm2 [x, 0] = |x| :=
  norm2_cons_replicate_zero x 1

theorem alpha_at_zero :
    min USER_BASE_ALPHA (1 / (((0 : ℕ) : ℝ) + 1)) = 1 / 10 := by
  rw [USER_BASE_ALPHA, min_eq_left (by norm_num)]

noncomputable def c3result : List ℝ :=
  (updateUserEmbedding [1 / 10 ^ 9, 0] 0 [0, 0] 1).1

theorem c3result_eq : c3result = [9 / 10 ^ 10, 0] := by
  have hnorm : norm2 [(9 : ℝ) / 10 ^ 10, 0] < NORM_EPS := by
    rw [norm2_pair, NORM_EPS, abs_of_nonneg (by norm_num)]
    norm_num
  have hvec : vecAdd (smul (1 - 1 / 10) [1 / 10 ^ 9, 0])
      (smul ((1 / 10) * 1) [(0 : ℝ), 0]) = [(9 : ℝ) / 10 ^ 10, 0] := by
    simp only [smul, vecAdd, List.map_cons, List.map_nil,
      List.zipWith_cons_cons, List.zipWith_nil_right, List.cons.injEq,
      and_true]
    norm_num
  simp only [c3result, updateUserEmbedding, alpha_at_zero]
  rw [hvec, normalize, if_pos hnorm]

/-- C3 counterexample: updating the stored vector `[1e-9, 0]` (counter `0`)
with signal `1` against the zero post vector writes back `[9e-10, 0]`, which
is neither exactly the zero vector nor within tolerance `1/100` of unit L2
norm — refuting the claimed zero-or-unit-norm invariant for arbitrary stored
data. -/
theorem C3_counterexample :
    ¬(c3result = [0, 0] ∨ |norm2 c3result - 1| ≤ 1 / 100) := by
  rw [c3result_eq]
  rintro (h | h)
  · simp only [List.cons.injEq, and_true] at h
    norm_num at h
  · rw [norm2_pair, abs_of_nonneg (by norm_num : (0:ℝ) ≤ 9 / 10 ^ 10),
      abs_of_nonpos (by norm_num)] at h
    norm_num at h

/-- The unit basis vector `e1` of dimension `n + 1`. -/
noncomputable def e1 (n : ℕ) : List ℝ := 1 :: List.replicate n 0

theorem zipWith_add_replicate_zero (n : ℕ) :
    List.zipWith (fun a b : ℝ => a + b) (List.replicate n 0)
      (List.replicate n 0) = List.replicate n 0 := by
  induction n with
  | zero => rfl
  | succ n ih => simp [List.replicate_succ, ih]

/-- C5: for every stored vector, counter, post embedding, and signal, the
user-embedding update computes `alpha = min(0.1, 1/(count+1))`, forms
`(1−alpha)·current + alpha·signal·post`, L2-normalizes it exactly when its
norm is at least `1e-8`, and writes the counter back incremented by one; in
particular, from a zero vector with counter `0` and signal `1` against the
unit post vector `e1`, the stored result is exactly `(e1, 1)`. -/
theorem C5_ema_update :
    (∀ (current : List ℝ) (count : ℕ) (postEmb : List ℝ) (signal : ℝ),
      updateUserEmbedding current count postEmb signal =
        (normalize (vecAdd
          (smul (1 - min USER_BASE_ALPHA (1 / ((count : ℝ) + 1))) current)
          (smul (min USER_BASE_ALPHA (1 / ((count : ℝ) + 1)) * signal) postEmb)),
          count + 1)) ∧
    (∀ v : List ℝ, normalize v =
        if norm2 v < NORM_EPS then v else v.map (fun x => x / norm2 v)) ∧
    (∀ n : ℕ, updateUserEmbedding (List.replicate (n + 1) 0) 0 (e1 n) 1 =
        (e1 n, 1)) := by
  refine ⟨fun _ _ _ _ => rfl, fun _ => rfl, ?_⟩
  intro n
  rw [updateUserEmbedding, Prod.mk.injEq]
  refine ⟨?_, rfl⟩
  rw [alpha_at_zero]
  have hsm1 : smul (1 - 1 / 10) (List.replicate (n + 1) (0 : ℝ)) =
      List.replicate (n + 1) 0 := by
    simp [smul, List.map_replicate]
  have hsm2 : smul ((1 / 10) * 1) (e1 n) =
      (1 / 10 : ℝ) :: List.replicate n 0 := by
    simp [smul, e1, List.map_replicate]
  have hv : vecAdd (List.replicate (n + 1) (0 : ℝ))
      ((1 / 10 : ℝ) :: List.replicate n 0) =
      (1 / 10 : ℝ) :: List.replicate n 0 := by
    rw [List.replicate_succ, vecAdd, List.zipWith_cons_cons,
      zipWith_add_replicate_zero]
    norm_num
  rw [hsm1, hsm2, hv, normalize, if_neg ?hbig, norm2_cons_replicate_zero,
    abs_of_nonneg (by norm_num : (0:ℝ) ≤ 1 / 10)]
  case hbig =>
    rw [norm2_cons_replicate_zero, NORM_EPS,
      abs_of_nonneg (by norm_num : (0:ℝ) ≤ 1 / 10)]
    norm_num
  rw [e1, List.map_cons, List.map_replicate]
  norm_num

/-! ### Engagement logging (`app/api/recommendations.py`, `log_engagement`) -/

/-- Handler-visible state: the stored `engagement_events` triples
`(user_id, post_id, event_type)` and a count of how many times the
online-learning service has been invoked. -/
structure EngState where
  events : List (Nat × Nat × String)
  learnCalls : ℕ
deriving DecidableEq

/-- The handler's JSON response: `status`, the optional `message` (set to
`"already_logged"` on a duplicate-key conflict) and the stored event id. -/
structure LogResponse where
  status : String
  message : Option String
  eventId : Option Nat
deriving DecidableEq

/-- `log_engagement`, with the store's insert conflict modelled from the spec:
the `engagement_events` DDL (not under `src/`) enforces
`UNIQUE(user_id, post_id, event_type)` for idempotent action types, described
by the predicate `idem`; a conflicting insert raises PostgreSQL error 23505.
The handler catches that conflict, returns success with the `already_logged`
marker and a null event id, and skips the online-learning call; a successful
insert appends the event, invokes online learning once, and returns the new
event's id. -/
def log_engagement (idem : String → Bool) (st : EngState) (u p : Nat)
    (t : String) : EngState × LogResponse :=
  if idem t ∧ (u, p, t) ∈ st.events then
    (st, { status := "success", message := some "already_logged", eventId := none })
  else
    ({ events := st.events ++ [(u, p, t)], learnCalls := st.learnCalls + 1 },
      { status := "success", message := none, eventId := some st.events.length })

/-- C4: submitting the same idempotent engagement event (same user, post,
action type, e.g. `like`) twice stores it exactly once: the first call inserts
and triggers exactly one online-learning application; the second call hits the
uniqueness conflict, returns a success response carrying the `already_logged`
marker and no event id, skips the learning call, and leaves the state exactly
as after the first call. -/
theorem C4_duplicate_engagement (idem : String → Bool) (st : EngState)
    (u p : Nat) (t : String) (hidem : idem t = true)
    (hnew : (u, p, t) ∉ st.events) :
    (log_engagement idem st u p t).2.status = "success" ∧
    (log_engagement idem (log_engagement idem st u p t).1 u p t).2 =
      { status := "success", message := some "already_logged", eventId := none } ∧
    (log_engagement idem (log_engagement idem st u p t).1 u p t).1 =
      (log_engagement idem st u p t).1 ∧
    ((log_engagement idem (log_engagement idem st u p t).1 u p t).1).events.count
        (u, p, t) = 1 ∧
    ((log_engagement idem (log_engagement idem st u p t).1 u p t).1).learnCalls =
      st.learnCalls + 1 := by
  have h1 : log_engagement idem st u p t =
      ({ events := st.events ++ [(u, p, t)], learnCalls := st.learnCalls + 1 },
        { status := "success", message := none,
          eventId := some st.events.length }) := by
    rw [log_engagement, if_neg]
    exact fun hc => hnew hc.2
  have hmem : (u, p, t) ∈ (log_engagement idem st u p t).1.events := by
    rw [h1]
    simp
  have h2 : log_engagement idem (log_engagement idem st u p t).1 u p t =
      ((log_engagement idem st u p t).1,
        { status := "success", message := some "already_logged",
          eventId := none }) := by
    rw [log_engagement, if_pos ⟨hidem, hmem⟩]
  refine ⟨by rw [h1], by rw [h2], by rw [h2], ?_, by rw [h2, h1]⟩
  rw [h2, h1]
  simp [List.count_append, List.count_eq_zero.mpr hnew]

def c4idem : String → Bool := fun s => s == "like"

def c4st : EngState := { events := [], learnCalls := 0 }

theorem C4_duplicate_engagement_witness :
    (log_engagement c4idem c4st 1 2 "like").2.status = "success" ∧
    (log_engagement c4idem (log_engagement c4idem c4st 1 2 "like").1
        1 2 "like").2 =
      { status := "success", message := some "already_logged", eventId := none } ∧
    (log_engagement c4idem (log_engagement c4idem c4st 1 2 "like").1
        1 2 "like").1 = (log_engagement c4idem c4st 1 2 "like").1 ∧
    ((log_engagement c4idem (log_engagement c4idem c4st 1 2 "like").1
        1 2 "like").1).events.count (1, 2, "like") = 1 ∧
    ((log_engagement c4idem (log_engagement c4idem c4st 1 2 "like").1
        1 2 "like").1).learnCalls = c4st.learnCalls + 1 :=
  C4_duplicate_engagement c4idem c4st 1 2 "like" rfl (by decide)

/-! ### Ranking-model interface (`app/services/minilm_ranker.py`) -/

/-- PyTorch training-mode `nn.Dropout(p)` applied to one activation row, with
the sampled keep-mask explicit: a kept activation is scaled by `1 / (1 - p)`,
a dropped one becomes `0`.  `ActionPredictionHead` is built with two
`nn.Dropout(0.1)` layers and is never put into eval mode — the source calls
`self.model.eval()` for the MiniLM base only, and `torch.no_grad()` does not
disable dropout — so every forward pass of the head samples fresh masks. -/
noncomputable def dropout (p : ℝ) (mask : List Bool) (v : List ℝ) : List ℝ :=
  List.zipWith (fun keep x => if keep then x / (1 - p) else 0) mask v

def relu (v : List ℝ) : List ℝ := v.map (fun x => max x 0)

/-- `nn.Sigmoid` on one activation. -/
noncomputable def sigmoid (x : ℝ) : ℝ := 1 / (1 + Real.exp (-x))

/-- `ActionPredictionHead.forward` on one batch row:
`Linear → ReLU → Dropout(0.1) → Linear → ReLU → Dropout(0.1) → Linear →
Sigmoid`.  The three `nn.Linear` layers are abstract parameters (their
weights are fresh randomly default-initialized values at construction, never
loaded from a trained artifact); the two dropout masks sampled for this
forward pass are explicit arguments, since the head runs in training mode. -/
noncomputable def ActionPredictionHead_forward
    (lin1 lin2 lin3 : List ℝ → List ℝ) (mask1 mask2 : List Bool)
    (x : List ℝ) : List ℝ :=
  (lin3 (dropout (1 / 10) mask2 (relu (lin2
    (dropout (1 / 10) mask1 (relu (lin1 x))))))).map sigmoid

/-- The per-row loop of `rank_candidates`: row `i` of the batch is the
concatenation of the user embedding and the candidate embedding, pushed
through the action head with the dropout masks the forward pass sampled for
that row (`nn.Dropout` draws an independent mask for every element of the
batched activation, hence per row), and zipped with the configured action
types to build the prediction dict. -/
noncomputable def rankRows (encode : String → List ℝ)
    (lin1 lin2 lin3 : List ℝ → List ℝ) (masks : ℕ → List Bool × List Bool)
    (actionTypes : List String) (userEmb : List ℝ) (i : ℕ) :
    List String → List (List (String × ℝ))
  | [] => []
  | text :: rest =>
      actionTypes.zip (ActionPredictionHead_forward lin1 lin2 lin3
          (masks i).1 (masks i).2 (userEmb ++ encode text)) ::
        rankRows encode lin1 lin2 lin3 masks actionTypes userEmb (i + 1) rest

/-- `MiniLMRanker.rank_candidates`: the user context is encoded once and each
candidate independently (the frozen MiniLM base encoder is an external
artifact held in eval mode, abstracted as `encode`; per its attention-masked,
mean-pooled batch encoding, a batch encodes per text).  The action head then
processes every concatenated row in one forward pass — in training mode, so
`masks` is the realization of the dropout masks sampled by that call. -/
noncomputable def rank_candidates (encode : String → List ℝ)
    (lin1 lin2 lin3 : List ℝ → List ℝ) (masks : ℕ → List Bool × List Bool)
    (actionTypes : List String) (userContext : String)
    (candidatePosts : List String) : List (List (String × ℝ)) :=
  rankRows encode lin1 lin2 lin3 masks actionTypes (encode userContext) 0
    candidatePosts

/-- `WeightedScorer.score` (`Σ weights.get(action, 0.0) × prob`) at the reals,
for scoring the model path's `ℝ`-valued predictions. -/
noncomputable def WeightedScorer_scoreR (weights predictions : List (String × ℝ)) : ℝ :=
  (predictions.map (fun ap =>
    ((weights.find? (fun e => e.1 == ap.1)).map Prod.snd).getD 0 * ap.2)).sum

theorem sigmoid_zero : sigmoid 0 = 1 / 2 := by
  rw [sigmoid, neg_zero, Real.exp_zero]
  norm_num

theorem sigmoid_log_three : sigmoid (Real.log 3) = 3 / 4 := by
  rw [sigmoid, Real.exp_neg, Real.exp_log (by norm_num : (0 : ℝ) < 3)]
  norm_num

noncomputable def c9lin1 : List ℝ → List ℝ := fun _ => [1]

noncomputable def c9lin2 : List ℝ → List ℝ := fun v => v

noncomputable def c9lin3 : List ℝ → List ℝ :=
  fun v => v.map (fun x => x * (81 / 100) * Real.log 3)

/-- A dropout realization that keeps the hidden activation in both layers. -/
def c9maskKeep : ℕ → List Bool × List Bool := fun _ => ([true], [true])

/-- A dropout realization that drops the hidden activation in the first layer. -/
def c9maskDrop : ℕ → List Bool × List Bool := fun _ => ([false], [true])

noncomputable def c9encode : String → List ℝ := fun _ => []

theorem c9head_keep :
    ActionPredictionHead_forward c9lin1 c9lin2 c9lin3 [true] [true] [] =
      [3 / 4] := by
  have hmax1 : max (1 : ℝ) 0 = 1 := max_eq_left (by norm_num)
  have hmax2 : max ((1 : ℝ) / (1 - 1 / 10)) 0 = 1 / (1 - 1 / 10) :=
    max_eq_left (by norm_num)
  rw [ActionPredictionHead_forward, c9lin1]
  rw [show relu [(1 : ℝ)] = [1] by simp [relu, hmax1]]
  rw [show dropout (1 / 10) [true] [(1 : ℝ)] = [1 / (1 - 1 / 10)] by
    simp [dropout]]
  rw [c9lin2]
  rw [show relu [(1 : ℝ) / (1 - 1 / 10)] = [1 / (1 - 1 / 10)] by
    simp [relu, hmax2]
    norm_num]
  rw [show dropout (1 / 10) [true] [(1 : ℝ) / (1 - 1 / 10)] =
      [1 / (1 - 1 / 10) / (1 - 1 / 10)] by
    simp [dropout]]
  rw [c9lin3]
  rw [show ([(1 : ℝ) / (1 - 1 / 10) / (1 - 1 / 10)].map
      (fun x => x * (81 / 100) * Real.log 3)) = [Real.log 3] by
    rw [List.map_cons, List.map_nil]
    norm_num]
  rw [List.map_cons, List.map_nil, sigmoid_log_three]

theorem c9head_drop :
    ActionPredictionHead_forward c9lin1 c9lin2 c9lin3 [false] [true] [] =
      [1 / 2] := by
  have hmax1 : max (1 : ℝ) 0 = 1 := max_eq_left (by norm_num)
  rw [ActionPredictionHead_forward, c9lin1]
  rw [show relu [(1 : ℝ)] = [1] by simp [relu, hmax1]]
  rw [show dropout (1 / 10) [false] [(1 : ℝ)] = [0] by simp [dropout]]
  rw [c9lin2]
  rw [show relu [(0 : ℝ)] = [0] by simp [relu]]
  rw [show dropout (1 / 10) [true] [(0 : ℝ)] = [0] by
    simp [dropout]]
  rw [c9lin3]
  rw [show ([(0 : ℝ)].map (fun x => x * (81 / 100) * Real.log 3)) = [0] by
    rw [List.map_cons, List.map_nil]
    norm_num]
  rw [List.map_cons, List.map_nil, sigmoid_zero]

/-- C9 (code bug): the source puts only the MiniLM base model into eval mode,
so the action head's `Dropout(0.1)` layers stay in training mode and every
`rank_candidates` call samples fresh dropout masks.  For the same
(user context, candidate) pair scored in two batch calls whose sampled masks
differ — one keeps the hidden activation, the other drops it — the returned
`like` probabilities are `3/4` and `1/2`, and the derived weighted scores
differ by `1/4`, violating the claimed `< 0.01` agreement. -/
theorem C9_dropout_breaks_isolation :
    rank_candidates c9encode c9lin1 c9lin2 c9lin3 c9maskKeep ["like"] "ctx"
        ["cand"] = [[("like", 3 / 4)]] ∧
    rank_candidates c9encode c9lin1 c9lin2 c9lin3 c9maskDrop ["like"] "ctx"
        ["cand"] = [[("like", 1 / 2)]] ∧
    ¬(|WeightedScorer_scoreR [("like", 1)] [("like", 3 / 4)] -
        WeightedScorer_scoreR [("like", 1)] [("like", 1 / 2)]| < 1 / 100) := by
  have hs₁ : WeightedScorer_scoreR [("like", 1)] [("like", 3 / 4)] = 3 / 4 := by
    simp [WeightedScorer_scoreR, List.find?]
  have hs₂ : WeightedScorer_scoreR [("like", 1)] [("like", 1 / 2)] = 1 / 2 := by
    simp [WeightedScorer_scoreR, List.find?]
  refine ⟨?_, ?_, ?_⟩
  · rw [rank_candidates, rankRows, rankRows]
    simp only [c9maskKeep, c9encode, List.nil_append]
    rw [c9head_keep]
    rfl
  · rw [rank_candidates, rankRows, rankRows]
    simp only [c9maskDrop, c9encode, List.nil_append]
    rw [c9head_drop]
    rfl
  · rw [hs₁, hs₂]
    rw [abs_of_nonneg (by norm_num : (0 : ℝ) ≤ 3 / 4 - 1 / 2)]
    norm_num

end RankLab
